import Mathlib

/-!
Verification of the aggregation, grouping and reconciliation engine of a
condominium expense-ledger application (React/TypeScript).

Modelling conventions, kept throughout:

* Monetary amounts are modelled as exact rationals (`Rat`).  The source keeps
  them as JavaScript numbers; the specification describes them as exact
  decimal monetary values, and every claim under study is about the algebra of
  the computations, not about binary floating-point rounding.
* Calendar dates are ISO `YYYY-MM-DD` strings, exactly as stored by the
  source.  The source compares them either directly as strings (`e.date <
  today`, `e.date >= startDate`) or through `new Date(s)`:
  - `new Date(s).getFullYear()` / `.getMonth()` are modelled by reading the
    zero-padded year / month digits of the string (`jsGetFullYear`,
    `jsGetMonth`), which is what they return for well-formed ISO date strings
    in any non-negative UTC-offset timezone (the application's locale);
  - sorting by `new Date(a.date).getTime() - new Date(b.date).getTime()` is
    modelled by sorting by the date string, since for well-formed zero-padded
    ISO dates the timestamp order coincides with the lexicographic string
    order.
* A JavaScript `Map` is modelled as an association list that preserves
  insertion order: `set` on a present key updates the entry in place, `set`
  on an absent key appends at the end — exactly the iteration-order semantics
  of `Map`.
* `Array.prototype.sort` (stable since ES2019) with comparator `cmp` is
  modelled by `List.insertionSort r` where `r a b` holds iff `cmp a b ≤ 0`;
  both are stable sorts, hence produce the same output list.
* `generateId` lives in `utils.ts`, which is not part of the sources under
  study; it is modelled from the spec as an injective supply of fresh
  identifiers, passed explicitly as a function `gen : Nat → String`.
-/

namespace Condo

/-- Payment status of an expense (`'paid' | 'unpaid'` in `types.ts`). -/
inductive Status where
  | paid : Status
  | unpaid : Status
deriving DecidableEq, Repr

/-- Rendering of a `Status` back to the string literal used by the source. -/
def Status.str : Status → String
  | .paid => "paid"
  | .unpaid => "unpaid"

/-- Attachment record (`types.ts`): `{id, name, url, type}`. -/
structure Attachment where
  id : String
  name : String
  url : String
  mime : String
deriving DecidableEq, Repr

/-- Expense record (`types.ts`).  `bankAccountId` is the optional weak
reference to a bank account; `attachments` is the (possibly empty) list of
attachments. -/
structure Expense where
  id : String
  description : String
  amount : Rat
  date : String
  category : String
  attachments : List Attachment
  bankAccountId : Option String
  status : Status
deriving DecidableEq, Repr

/-- Income record (`types.ts`): like `Expense` but without `status` and
`attachments`. -/
structure Income where
  id : String
  description : String
  amount : Rat
  date : String
  category : String
  bankAccountId : Option String
deriving DecidableEq, Repr

/-- Bank-account record (`types.ts`). -/
structure BankAccount where
  id : String
  name : String
  initialBalance : Rat
  iban : String
deriving DecidableEq, Repr

/-- Sum of the `amount` fields of a list of expenses. -/
def amountSum (l : List Expense) : Rat :=
  (l.map (·.amount)).sum

/-- Sum of the `amount` fields of a list of incomes. -/
def incomeSum (l : List Income) : Rat :=
  (l.map (·.amount)).sum

/-- Value of a zero-padded decimal digit string. -/
def digitsToNat (l : List Char) : Nat :=
  l.foldl (fun acc c => acc * 10 + (c.toNat - 48)) 0

/-- Model of `new Date(s).getFullYear()` for a zero-padded ISO date string:
the numeric value of the first four characters. -/
def jsGetFullYear (s : String) : Nat :=
  digitsToNat (s.data.take 4)

/-- Model of `new Date(s).getMonth()` for a zero-padded ISO date string: the
0-based month, i.e. the numeric value of characters 5–6 minus one. -/
def jsGetMonth (s : String) : Nat :=
  digitsToNat ((s.data.drop 5).take 2) - 1

/-- ASCII lower-casing of one character, the effect of
`String.prototype.toLowerCase` on the character data at hand. -/
def jsCharToLower (c : Char) : Char :=
  if 'A' ≤ c ∧ c ≤ 'Z' then Char.ofNat (c.toNat + 32) else c

/-- Model of `s.toLowerCase()`. -/
def jsToLower (s : String) : String :=
  String.mk (s.data.map jsCharToLower)

/-- Whitespace test of `String.prototype.trim`. -/
def isJSWhitespace (c : Char) : Bool :=
  c == ' ' || c == '\t' || c == '\n' || c == '\r'

/-- Model of `s.trim()`: strip leading and trailing whitespace. -/
def jsTrim (s : String) : String :=
  String.mk (((s.data.dropWhile isJSWhitespace).reverse.dropWhile isJSWhitespace).reverse)

/-- Case-insensitive substring test: model of
`haystack.toLowerCase().includes(needle.toLowerCase())`.  In the source the
needle (`searchTerm`) is lowercased once and each field is lowercased before
the `includes` call. -/
def containsCI (haystack needle : String) : Bool :=
  decide ((jsToLower needle).data <:+: (jsToLower haystack).data)

/-- Resolution of the weak bank-account reference used by the filter and the
CSV/XML exports: `bankAccounts.find(acc => acc.id === e.bankAccountId)?.name
|| ''` — an unresolved (or absent) reference contributes the empty string. -/
def resolvedBankName (accounts : List BankAccount) (ref : Option String) : String :=
  ((accounts.find? (fun acc => some acc.id == ref)).map (·.name)).getD ""

/-- Filter specification exactly as held in the `ExpenseList` component's
state: six strings, where the empty string means "unset". -/
structure FilterSpec where
  searchTerm : String
  startDate : String
  endDate : String
  selectedCategory : String
  selectedAccountId : String
  paymentStatus : String
deriving DecidableEq, Repr

/-- Per-record predicate of the filter engine, translated clause by clause
from the body of `filteredExpenses` in `ExpenseList.tsx` (lines 138–154). -/
def expenseMatches (accounts : List BankAccount) (f : FilterSpec) (e : Expense) : Bool :=
  let bankAccountName := resolvedBankName accounts e.bankAccountId
  let matchesSearch :=
    containsCI e.description f.searchTerm ||
    containsCI e.category f.searchTerm ||
    containsCI bankAccountName f.searchTerm
  let matchesStartDate := if f.startDate ≠ "" then decide (f.startDate ≤ e.date) else true
  let matchesEndDate := if f.endDate ≠ "" then decide (e.date ≤ f.endDate) else true
  let matchesCategory := if f.selectedCategory ≠ "" then e.category == f.selectedCategory else true
  let matchesAccount :=
    if f.selectedAccountId ≠ "" then e.bankAccountId == some f.selectedAccountId else true
  let matchesStatus := if f.paymentStatus ≠ "" then e.status.str == f.paymentStatus else true
  matchesSearch && matchesStartDate && matchesEndDate && matchesCategory &&
    matchesAccount && matchesStatus

/-- The filter engine: `expenses.filter(e => …)` of `ExpenseList.tsx`. -/
def filteredExpenses (expenses : List Expense) (accounts : List BankAccount)
    (f : FilterSpec) : List Expense :=
  expenses.filter (expenseMatches accounts f)

/-- Running total of the filtered view:
`filteredExpenses.reduce((sum, e) => sum + e.amount, 0)`. -/
def filteredTotal (expenses : List Expense) (accounts : List BankAccount)
    (f : FilterSpec) : Rat :=
  (filteredExpenses expenses accounts f).foldl (fun sum e => sum + e.amount) 0

/-- Filter specification in the shape the written specification gives it:
`{searchText, startDate?, endDate?, category?, accountId?, status?}` with
genuinely optional fields. -/
structure SpecFilter where
  searchText : String
  startDate : Option String
  endDate : Option String
  category : Option String
  accountId : Option String
  status : Option String
deriving DecidableEq, Repr

/-- Translation of the component state into the specification's optional
fields: an empty string is an unset field. -/
def FilterSpec.toSpec (f : FilterSpec) : SpecFilter where
  searchText := f.searchTerm
  startDate := if f.startDate = "" then none else some f.startDate
  endDate := if f.endDate = "" then none else some f.endDate
  category := if f.selectedCategory = "" then none else some f.selectedCategory
  accountId := if f.selectedAccountId = "" then none else some f.selectedAccountId
  status := if f.paymentStatus = "" then none else some f.paymentStatus

/-- Insertion-order-preserving update of a JavaScript `Map` modelled as an
association list: `m.set(k, f(m.get(k) ?? dflt))`.  A present key is updated
in place; an absent key is appended at the end, matching `Map` iteration
order. -/
def mapUpd {κ β : Type} [DecidableEq κ] (l : List (κ × β)) (k : κ) (dflt : β)
    (f : β → β) : List (κ × β) :=
  match l with
  | [] => [(k, f dflt)]
  | (k', v) :: rest =>
      if k' = k then (k', f v) :: rest else (k', v) :: mapUpd rest k dflt f

/-- One bucket of the grouping engine (`ReportView.tsx`): a running total
plus per-sub-key subtotal and count maps. -/
structure Bucket (κ : Type) where
  total : Rat
  subs : List (κ × Rat)
  subCounts : List (κ × Nat)
deriving DecidableEq, Repr

/-- The empty bucket `{ total: 0, subs: new Map(), subCounts: new Map() }`. -/
def Bucket.empty {κ : Type} : Bucket κ := ⟨0, [], []⟩

/-- Processing of one expense by the grouping loop of `ReportView.tsx`
(lines 51–63 resp. 91–103): bump the bucket of `key e` — its total, the
subtotal of `sub e` and the count of `sub e` — creating the bucket and the
sub-entries on first encounter. -/
def bucketStep {κ₁ κ₂ : Type} [DecidableEq κ₁] [DecidableEq κ₂]
    (key : Expense → κ₁) (sub : Expense → κ₂)
    (m : List (κ₁ × Bucket κ₂)) (e : Expense) : List (κ₁ × Bucket κ₂) :=
  mapUpd m (key e) Bucket.empty fun b =>
    { total := b.total + e.amount
      subs := mapUpd b.subs (sub e) 0 (· + e.amount)
      subCounts := mapUpd b.subCounts (sub e) 0 (· + 1) }

/-- The grouping map built by iterating `bucketStep` over the whole filtered
collection (the `forEach` loops of `ReportView.tsx`). -/
def buildMap {κ₁ κ₂ : Type} [DecidableEq κ₁] [DecidableEq κ₂]
    (key : Expense → κ₁) (sub : Expense → κ₂) (l : List Expense) :
    List (κ₁ × Bucket κ₂) :=
  l.foldl (bucketStep key sub) []

/-- Year scoping applied by `ReportView.tsx` before grouping:
`expenses.filter(e => new Date(e.date).getFullYear() === selectedYear)`. -/
def yearFiltered (year : Nat) (expenses : List Expense) : List Expense :=
  expenses.filter (fun e => jsGetFullYear e.date == year)

/-- Item of a month group: one category with its subtotal and count. -/
structure CatItem where
  label : String
  amount : Rat
  count : Nat
deriving DecidableEq, Repr

/-- Item of a category group: one month with its subtotal and count. -/
structure MonthItem where
  monthIdx : Nat
  amount : Rat
  count : Nat
deriving DecidableEq, Repr

/-- Month group of the `byMonth` grouping: identified by the 0-based month
index (the localized month label is presentation only). -/
structure MonthGroup where
  monthIdx : Nat
  total : Rat
  items : List CatItem
deriving DecidableEq, Repr

/-- Category group of the `byCategory` grouping. -/
structure CatGroup where
  label : String
  total : Rat
  items : List MonthItem
deriving DecidableEq, Repr

/-- Comparator order for sorting the month entries descending:
`Array.from(monthsMap.keys()).sort((a, b) => b - a)`; the keys are distinct,
so sorting keys and looking each one up equals sorting the entries. -/
def monthEntryGE (p q : Nat × Bucket String) : Prop := q.1 ≤ p.1

/-- Comparator order for the in-month category items:
`.sort((a, b) => b.amount - a.amount)` (subtotal descending, stable). -/
def catItemGE (a b : CatItem) : Prop := b.amount ≤ a.amount

/-- Comparator order for the category entries: `Array.from(catMap.keys()).sort()`
(default lexicographic string sort over distinct keys). -/
def catEntryLE (p q : String × Bucket Nat) : Prop := p.1 ≤ q.1

/-- Comparator order for the in-category month items:
`.sort((a, b) => a.monthIdx - b.monthIdx)` (chronological ascending). -/
def monthItemLE (a b : MonthItem) : Prop := a.monthIdx ≤ b.monthIdx

instance : DecidableRel monthEntryGE := fun p q => Nat.decLe q.1 p.1

instance : DecidableRel catItemGE := fun a b => inferInstanceAs (Decidable (b.amount ≤ a.amount))

instance : DecidableRel catEntryLE := fun p q => inferInstanceAs (Decidable (p.1 ≤ q.1))

instance : DecidableRel monthItemLE := fun a b => Nat.decLe a.monthIdx b.monthIdx

instance : IsTotal (Nat × Bucket String) monthEntryGE := ⟨fun p q => Nat.le_total q.1 p.1⟩

instance : IsTrans (Nat × Bucket String) monthEntryGE :=
  ⟨fun _ _ _ h h' => Nat.le_trans h' h⟩

instance : IsTotal CatItem catItemGE := ⟨fun a b => le_total b.amount a.amount⟩

instance : IsTrans CatItem catItemGE := ⟨fun _ _ _ h h' => le_trans h' h⟩

instance : IsTotal (String × Bucket Nat) catEntryLE := ⟨fun p q => le_total p.1 q.1⟩

instance : IsTrans (String × Bucket Nat) catEntryLE := ⟨fun _ _ _ h h' => le_trans h h'⟩

instance : IsTotal MonthItem monthItemLE := ⟨fun a b => Nat.le_total a.monthIdx b.monthIdx⟩

instance : IsTrans MonthItem monthItemLE := ⟨fun _ _ _ h h' => Nat.le_trans h h'⟩

/-- Pre-sort item list of one month entry:
`Array.from(d.subs.entries()).map(([cat, amount]) => ({label, amount, count}))`.
Its order is the first-encounter order of the categories inside the month,
because the subtotal `Map` preserves insertion order. -/
def monthItemsOf (p : Nat × Bucket String) : List CatItem :=
  p.2.subs.map fun s => ⟨s.1, s.2, ((p.2.subCounts.find? (·.1 = s.1)).map (·.2)).getD 0⟩

/-- Group assembled from one month entry (`ReportView.tsx` lines 68–85): the
category items, each carrying its subtotal and count, sorted by subtotal
descending with a stable sort. -/
def mkMonthGroup (p : Nat × Bucket String) : MonthGroup where
  monthIdx := p.1
  total := p.2.total
  items := List.insertionSort catItemGE (monthItemsOf p)

/-- Pre-sort item list of one category entry, in first-encounter order of
the months inside the category. -/
def catItemsOf (p : String × Bucket Nat) : List MonthItem :=
  p.2.subs.map fun s => ⟨s.1, s.2, ((p.2.subCounts.find? (·.1 = s.1)).map (·.2)).getD 0⟩

/-- Group assembled from one category entry (`ReportView.tsx` lines 107–127):
the month items sorted chronologically ascending. -/
def mkCatGroup (p : String × Bucket Nat) : CatGroup where
  label := p.1
  total := p.2.total
  items := List.insertionSort monthItemLE (catItemsOf p)

/-- The `byMonth` branch of `groupedData` (`ReportView.tsx` lines 47–85):
bucket the year-scoped expenses by month with per-category subtotals, then
emit the months in descending month order. -/
def groupByMonth (year : Nat) (expenses : List Expense) : List MonthGroup :=
  (List.insertionSort monthEntryGE
      (buildMap (fun e => jsGetMonth e.date) (fun e => e.category)
        (yearFiltered year expenses))).map mkMonthGroup

/-- The `byCategory` branch of `groupedData` (`ReportView.tsx` lines 87–127):
bucket the year-scoped expenses by category with per-month subtotals, then
emit the categories in ascending label order. -/
def groupByCategory (year : Nat) (expenses : List Expense) : List CatGroup :=
  (List.insertionSort catEntryLE
      (buildMap (fun e => e.category) (fun e => jsGetMonth e.date)
        (yearFiltered year expenses))).map mkCatGroup

/-- Predicate written from the specification's own wording (§4.2): the AND of
the case-insensitive search clause over description OR category OR resolved
account name, the inclusive ISO-string date bounds, and exact equality on
category, account id and status; an unset field imposes no constraint. -/
def specMatches (accounts : List BankAccount) (f : SpecFilter) (e : Expense) : Bool :=
  (containsCI e.description f.searchText ||
    containsCI e.category f.searchText ||
    containsCI (resolvedBankName accounts e.bankAccountId) f.searchText) &&
  (match f.startDate with
    | none => true
    | some s => decide (s ≤ e.date)) &&
  (match f.endDate with
    | none => true
    | some s => decide (e.date ≤ s)) &&
  (match f.category with
    | none => true
    | some c => e.category == c) &&
  (match f.accountId with
    | none => true
    | some a => e.bankAccountId == some a) &&
  (match f.status with
    | none => true
    | some s => e.status.str == s)

/-- Replacement `set` of a JavaScript `Map` (no default/update function):
overwrite a present key in place, append an absent one. -/
def mapSet {κ β : Type} [DecidableEq κ] (l : List (κ × β)) (k : κ) (v : β) :
    List (κ × β) :=
  match l with
  | [] => [(k, v)]
  | (k', v') :: rest => if k' = k then (k', v) :: rest else (k', v') :: mapSet rest k v

/-- Lookup in a modelled `Map` (first matching key). -/
def mapGet {κ β : Type} [DecidableEq κ] (l : List (κ × β)) (k : κ) : Option β :=
  match l with
  | [] => none
  | (k', v) :: rest => if k' = k then some v else mapGet rest k

/-- Sum of the expense amounts attributed to the account with id `accId`:
`expenses.filter(e => e.bankAccountId === acc.id).reduce((sum, e) => sum + e.amount, 0)`. -/
def attributedExpenseSum (expenses : List Expense) (accId : String) : Rat :=
  (expenses.filter (fun e => e.bankAccountId == some accId)).foldl
    (fun sum e => sum + e.amount) 0

/-- Sum of the income amounts attributed to the account with id `accId`. -/
def attributedIncomeSum (incomes : List Income) (accId : String) : Rat :=
  (incomes.filter (fun i => i.bankAccountId == some accId)).foldl
    (fun sum i => sum + i.amount) 0

/-- Balance of one account as `BankAccountList` computes it:
`acc.initialBalance + totalIncomes - totalExpenses`, over the whole record
collections with no year or filter restriction. -/
def balanceOf (expenses : List Expense) (incomes : List Income) (acc : BankAccount) : Rat :=
  acc.initialBalance + attributedIncomeSum incomes acc.id -
    attributedExpenseSum expenses acc.id

/-- The balance map of `BankAccountList` (`accountBalances` in the source):
`bankAccounts.forEach(acc => balances.set(acc.id, …))` over an initially
empty `Map`. -/
def accountBalances (accounts : List BankAccount) (expenses : List Expense)
    (incomes : List Income) : List (String × Rat) :=
  accounts.foldl
    (fun balances acc => mapSet balances acc.id (balanceOf expenses incomes acc)) []

/-- Ascending-by-date order used for the overdue list
(`.sort((a, b) => new Date(a.date).getTime() - new Date(b.date).getTime())`),
modelled on the ISO date strings. -/
def dateLE (a b : Expense) : Prop := a.date ≤ b.date

/-- Descending-by-date order used by the add/update handlers of `App.tsx`
(`.sort((a, b) => new Date(b.date).getTime() - new Date(a.date).getTime())`). -/
def dateGE (a b : Expense) : Prop := b.date ≤ a.date

/-- Descending-by-date order on incomes. -/
def incomeDateGE (a b : Income) : Prop := b.date ≤ a.date

instance : DecidableRel dateLE := fun a b => inferInstanceAs (Decidable (a.date ≤ b.date))

instance : DecidableRel dateGE := fun a b => inferInstanceAs (Decidable (b.date ≤ a.date))

instance : DecidableRel incomeDateGE := fun a b => inferInstanceAs (Decidable (b.date ≤ a.date))

instance : IsTotal Expense dateLE := ⟨fun a b => le_total a.date b.date⟩

instance : IsTrans Expense dateLE := ⟨fun _ _ _ h h' => le_trans h h'⟩

instance : IsTotal Expense dateGE := ⟨fun a b => le_total b.date a.date⟩

instance : IsTrans Expense dateGE := ⟨fun _ _ _ h h' => le_trans h' h⟩

instance : IsTotal Income incomeDateGE := ⟨fun a b => le_total b.date a.date⟩

instance : IsTrans Income incomeDateGE := ⟨fun _ _ _ h h' => le_trans h' h⟩

/-- The overdue detector of the dashboard: keep the unpaid expenses dated
strictly before `today` (global, not year-scoped) and sort them ascending by
date, oldest first. -/
def overdueExpenses (today : String) (expenses : List Expense) : List Expense :=
  List.insertionSort dateLE
    (expenses.filter (fun e => e.status == Status.unpaid && decide (e.date < today)))

/-- Hinnant's civil-calendar day count: days from 1970-01-01 (the Unix
epoch) to the Gregorian date `y-m-d` (`m` is 1-based).  This is the value
`new Date("y-m-d").getTime() / 86400000` computes for an ISO date string,
used here to give the timestamps fed to `getDaysOverdue` and the
calendar-day difference the specification mandates. -/
def daysFromCivil (y m d : Int) : Int :=
  let y' := if m ≤ 2 then y - 1 else y
  let era := Int.fdiv y' 400
  let yoe := y' - era * 400
  let mp := if m > 2 then m - 3 else m + 9
  let doy := Int.fdiv (153 * mp + 2) 5 + d - 1
  let doe := yoe * 365 + Int.fdiv yoe 4 - Int.fdiv yoe 100 + doy
  era * 146097 + doe - 719468

/-- Milliseconds of the UTC midnight of a calendar date, as
`new Date("YYYY-MM-DD").getTime()` computes it. -/
def msAtUTCMidnight (y m d : Int) : Int :=
  daysFromCivil y m d * 86400000

/-- The days-overdue computation of the dashboard (`getDaysOverdue`),
operating on the clock's current timestamp and the expense date's timestamp,
both in milliseconds:
`Math.ceil(Math.abs(today.getTime() - expenseDate.getTime()) / 86400000)`. -/
def getDaysOverdue (nowMs expenseMs : Int) : Nat :=
  ((nowMs - expenseMs).natAbs + 86399999) / 86400000

/-- Duplicate test of the manual entry form (`handleSubmit`): some existing
expense matches the candidate on amount, date and trimmed+lowercased
description. -/
def isDuplicate (existing : List Expense) (description : String) (amount : Rat)
    (date : String) : Bool :=
  existing.any fun exp =>
    exp.amount == amount && exp.date == date &&
      jsTrim (jsToLower exp.description) == jsTrim (jsToLower description)

/-- Outcome of submitting the manual expense form: either the record goes
straight to `onAdd`/`onUpdate`, or the blocking "save anyway?" confirmation
is raised with the record held as pending. -/
inductive SubmitOutcome where
  | saved : Expense → SubmitOutcome
  | duplicateWarning : Expense → SubmitOutcome
deriving DecidableEq, Repr

/-- The decision logic of `handleSubmit` in the expense form: a non-editing
submission against a non-empty ledger that trips the duplicate test is
parked behind the blocking confirmation instead of being saved. -/
def handleSubmit (isEditing : Bool) (existing : List Expense) (data : Expense) :
    SubmitOutcome :=
  if !isEditing && !existing.isEmpty &&
      isDuplicate existing data.description data.amount data.date then
    .duplicateWarning data
  else
    .saved data

/-- Candidate record produced by the extraction service
(`ParsedExpenseData` in `geminiService.ts`). -/
structure ParsedExpenseData where
  description : String
  amount : Rat
  category : String
  date : String
deriving DecidableEq, Repr

/-- Final commit of the extraction-service batch import
(`handleSaveImportCandidates` in `ExpenseList.tsx`): every candidate is
turned into an expense with a freshly generated id, status `unpaid` and no
attachments, and handed to `onAdd` — with no duplicate check of any kind.
The fresh-id supply `gen` models `generateId` (whose source, `utils.ts`, is
not among the files under study). -/
def handleSaveImportCandidates (gen : Nat → String) (cands : List ParsedExpenseData) :
    List Expense :=
  cands.enum.map fun p =>
    { id := gen p.1
      description := p.2.description
      amount := p.2.amount
      date := p.2.date
      category := p.2.category
      status := Status.unpaid
      bankAccountId := none
      attachments := [] }

/-- One `<expense>` element of an imported XML file, with the optional
sub-elements already extracted (the `DOMParser`/`parseFloat` text handling is
presentation plumbing): a `none` or empty `id` is falsy in
`item.getElementsByTagName("id")[0]?.textContent || generateId()`. -/
structure XmlExpenseItem where
  id : Option String
  description : Option String
  amount : Rat
  category : Option String
  date : Option String
  status : Option Status
  bankName : Option String
deriving DecidableEq, Repr

/-- The XML branch of `handleImportFile` (`ExpenseList.tsx` lines 166–192):
each item keeps the id carried in the file when present and non-empty and
receives a generated one otherwise; items with an empty description or a
non-positive amount are skipped; the bank account is matched by name.
`today` models `new Date().toISOString().split('T')[0]`. -/
def handleImportFileXML (gen : Nat → String) (today : String)
    (accounts : List BankAccount) (items : List XmlExpenseItem) : List Expense :=
  (items.enum.filterMap fun p =>
    let it := p.2
    let desc := it.description.getD ""
    if desc ≠ "" ∧ 0 < it.amount then
      some
        { id := match it.id with
            | some s => if s = "" then gen p.1 else s
            | none => gen p.1
          description := desc
          amount := it.amount
          category := it.category.getD "Varie"
          date := it.date.getD today
          status := it.status.getD Status.unpaid
          bankAccountId := (accounts.find? (fun b => some b.name == it.bankName)).map (·.id)
          attachments := [] }
    else none)

/-- The expense add handler of `App.tsx`:
`setExpenses(prev => [expense, ...prev].sort(dateDescending))`. -/
def handleAddExpense (expense : Expense) (prev : List Expense) : List Expense :=
  List.insertionSort dateGE (expense :: prev)

/-- The expense update handler of `App.tsx`: replace the record with the
matching id, then re-sort descending by date. -/
def handleUpdateExpense (updated : Expense) (prev : List Expense) : List Expense :=
  List.insertionSort dateGE (prev.map fun e => if e.id == updated.id then updated else e)

/-- The income add handler of `App.tsx`. -/
def handleAddIncome (income : Income) (prev : List Income) : List Income :=
  List.insertionSort incomeDateGE (income :: prev)

/-- The income update handler of `App.tsx`. -/
def handleUpdateIncome (updated : Income) (prev : List Income) : List Income :=
  List.insertionSort incomeDateGE (prev.map fun i => if i.id == updated.id then updated else i)

/-- The bank-account add handler of `App.tsx`:
`setBankAccounts(prev => [account, ...prev])` — a plain prepend, no sort. -/
def handleAddBankAccount (account : BankAccount) (prev : List BankAccount) :
    List BankAccount :=
  account :: prev

/-- Digits after the decimal point of the proper fraction `num / den`
(`num < den`), fuel-bounded; faithful to JavaScript's `Number.toString` on
monetary values, whose fractional part terminates. -/
def decimalFracDigits (fuel num den : Nat) : List Char :=
  match fuel with
  | 0 => []
  | fuel + 1 =>
      if num = 0 then []
      else Nat.digitChar (num * 10 / den) :: decimalFracDigits fuel (num * 10 % den) den

/-- Model of JavaScript `Number.prototype.toString` on the (finite-decimal)
monetary values the ledger holds: integer part, then a dot and the fraction
digits when the value is not integral. -/
def jsNumToString (r : Rat) : String :=
  let n := r.num.natAbs
  let sign := if r.num < 0 then "-" else ""
  if n % r.den = 0 then sign ++ toString (n / r.den)
  else sign ++ toString (n / r.den) ++ "." ++ String.mk (decimalFracDigits 20 (n % r.den) r.den)

/-- Global replacement of one character by a string, the effect of every
`replace` call of the export code: the patterns there are single characters
and either the regex is global or (for the decimal dot of a number string)
at most one occurrence can exist. -/
def replaceAllChar (s : String) (c : Char) (rep : String) : String :=
  String.mk (s.data.foldr (fun ch acc => if ch = c then rep.data ++ acc else ch :: acc) [])

/-- CSV field quoting of `handleExportCSV`:
`(str) => `"${String(str || '').replace(/"/g, '""')}"`». -/
def escapeCSV (s : String) : String :=
  "\"" ++ replaceAllChar s '"' "\"\"" ++ "\""

/-- Header line of the CSV export. -/
def csvHeader : String :=
  "ID;Data;Descrizione;Categoria;Importo;Stato Pagamento;Conto Corrente;ID Conto;Numero Allegati"

/-- One CSV data line of `handleExportCSV` (`ExpenseList.tsx` lines 307–320):
the raw ISO date, the quoted description, the amount with the decimal dot
replaced by a comma, and the resolved account name (empty when unresolved);
a missing `bankAccountId` renders as the empty field, as `Array.join` does
with `undefined`. -/
def csvRow (accounts : List BankAccount) (e : Expense) : String :=
  String.intercalate ";"
    [e.id, e.date, escapeCSV e.description, e.category,
      replaceAllChar (jsNumToString e.amount) '.' ",", e.status.str,
      escapeCSV (resolvedBankName accounts e.bankAccountId),
      e.bankAccountId.getD "", toString e.attachments.length]

/-- The CSV export (`handleExportCSV`): `none` models the early return on an
empty filtered set; otherwise the emitted lines are the header followed by
one line per filtered record — the source appends nothing after the data
rows. -/
def handleExportCSV (expenses : List Expense) (accounts : List BankAccount)
    (f : FilterSpec) : Option (List String) :=
  let fe := filteredExpenses expenses accounts f
  if fe.isEmpty then none else some (csvHeader :: fe.map (csvRow accounts))

/-- One body row of the PDF export's table (`handleExportPDF`): the amount is
kept as the exact value handed to the currency formatter; the account name
defaults to `'N/A'` in this export. -/
structure PdfRow where
  date : String
  description : String
  category : String
  account : String
  amount : Rat
deriving DecidableEq, Repr

/-- Data contract of the PDF export (`handleExportPDF`, `ExpenseList.tsx`
lines 258–298): the table body plus the footer's total, which the source
takes directly from `filteredTotal` (`foot: [['', '', '', 'TOTALE',
totalString]]`). -/
structure PdfExport where
  body : List PdfRow
  footTotal : Rat
deriving DecidableEq, Repr

/-- The PDF export's data contract, built from the same `filteredExpenses`
and `filteredTotal` the list view displays. -/
def handleExportPDF (expenses : List Expense) (accounts : List BankAccount)
    (f : FilterSpec) : PdfExport where
  body :=
    (filteredExpenses expenses accounts f).map fun e =>
      { date := e.date
        description := e.description
        category := e.category
        account := (((accounts.find? (fun acc => some acc.id == e.bankAccountId)).map
          (·.name))).getD "N/A"
        amount := e.amount }
  footTotal := filteredTotal expenses accounts f

/-- Escaping applied to the description in the XML export. -/
def xmlEscape (s : String) : String :=
  replaceAllChar (replaceAllChar (replaceAllChar s '&' "&amp;") '<' "&lt;") '>' "&gt;"

/-- One `<expense>` element of the XML export (`handleExportXML`). -/
def xmlExpenseElem (accounts : List BankAccount) (e : Expense) : String :=
  "  <expense>\n" ++
  "    <id>" ++ e.id ++ "</id>\n" ++
  "    <date>" ++ e.date ++ "</date>\n" ++
  "    <description>" ++ xmlEscape e.description ++ "</description>\n" ++
  "    <category>" ++ e.category ++ "</category>\n" ++
  "    <amount>" ++ jsNumToString e.amount ++ "</amount>\n" ++
  "    <status>" ++ e.status.str ++ "</status>\n" ++
  "    <bankAccount>" ++
    replaceAllChar (resolvedBankName accounts e.bankAccountId) '&' "&amp;" ++
    "</bankAccount>\n" ++
  "  </expense>\n"

/-- The XML export (`handleExportXML`): prologue, one element per filtered
record, closing tag — and nothing else (in particular no totals element).
`none` models the early return on an empty filtered set. -/
def handleExportXML (expenses : List Expense) (accounts : List BankAccount)
    (f : FilterSpec) : Option String :=
  let fe := filteredExpenses expenses accounts f
  if fe.isEmpty then none
  else
    some ("<?xml version=\"1.0\" encoding=\"UTF-8\"?>\n<expenses>\n" ++
      String.join (fe.map (xmlExpenseElem accounts)) ++ "</expenses>")

/-- One body row of the DOCX export's table (`handleExportDOCX`): date,
description, category and the amount handed to the currency formatter.  The
source builds one header row of column labels followed by these body rows;
the header row carries no data and is modelled out. -/
structure DocxRow where
  date : String
  description : String
  category : String
  amount : Rat
deriving DecidableEq, Repr

/-- The DOCX export's body rows (`handleExportDOCX`, `ExpenseList.tsx`
lines 370–437): exactly one row per filtered record, no total row.  `none`
models the early return on an empty filtered set. -/
def handleExportDOCX (expenses : List Expense) (accounts : List BankAccount)
    (f : FilterSpec) : Option (List DocxRow) :=
  let fe := filteredExpenses expenses accounts f
  if fe.isEmpty then none
  else
    some (fe.map fun e =>
      { date := e.date
        description := e.description
        category := e.category
        amount := e.amount })

/-! ### Sample ledger used by witnesses and counterexamples -/

/-- Sample paid maintenance expense (the specification's worked scenario). -/
def sampleExpense : Expense :=
  ⟨"e1", "Manutenzione ascensore", 450, "2023-10-15", "Manutenzione", [], none, .paid⟩

/-- Sample unpaid utility expense attributed to account `acc1`. -/
def sampleUtility : Expense :=
  ⟨"e2", "Bolletta luce", 300, "2023-11-01", "Utenze", [], some "acc1", .unpaid⟩

/-- Sample expense matching `sampleExpense` up to case and whitespace of the
description. -/
def dupCandidate : Expense :=
  ⟨"e7", "  MANUTENZIONE ASCENSORE ", 450, "2023-10-15", "Manutenzione", [], none, .unpaid⟩

/-- Sample bank account (the specification's worked scenario). -/
def sampleAccount : BankAccount := ⟨"acc1", "Conto Condominio", 5000, "IT00X"⟩

/-- Sample expense attributed to `acc1`. -/
def sampleExpenseAcc : Expense :=
  ⟨"e9", "Manutenzione ascensore", 450, "2023-10-15", "Manutenzione", [], some "acc1", .paid⟩

/-- Sample income attributed to `acc1`. -/
def sampleIncomeAcc : Income :=
  ⟨"i1", "Quote - Rossi", 550, "2023-10-05", "Quote Condominiali", some "acc1"⟩

/-- The all-unset filter specification. -/
def noFilter : FilterSpec := ⟨"", "", "", "", "", ""⟩

/-- A concrete fresh-id supply for counterexamples. -/
def genFresh : Nat → String := fun n => "fresh-" ++ toString n

/-- An injective fresh-id supply used by witnesses. -/
def genRep : Nat → String := fun n => String.mk (List.replicate n 'a')

/-- An imported XML item that carries its own id element. -/
def xmlItemCarried : XmlExpenseItem :=
  ⟨some "E1", some "Bolletta luce", 10, none, none, none, none⟩

/-! ### Helper lemmas -/

/-- Bumping one key of a subtotal map by `amt` raises the sum of its values
by `amt`, whether the key was present or fresh. -/
theorem mapUpd_sum_snd {κ : Type} [DecidableEq κ] (l : List (κ × Rat)) (k : κ) (amt : Rat) :
    ((mapUpd l k 0 (· + amt)).map (·.2)).sum = (l.map (·.2)).sum + amt := by
  induction l with
  | nil => simp [mapUpd]
  | cons p rest ih =>
      obtain ⟨k', v⟩ := p
      by_cases h : k' = k
      · simp [mapUpd, h]
        ring
      · simp [mapUpd, h, ih]
        ring

/-- Membership invariant of `mapUpd`: a property of the stored values that
holds on the list, on the updated default and along the update function
holds on every entry of the result. -/
theorem mapUpd_mem_inv {κ β : Type} [DecidableEq κ] {P : β → Prop}
    (l : List (κ × β)) (k : κ) (d : β) (f : β → β)
    (hl : ∀ p ∈ l, P p.2) (hd : P (f d)) (hf : ∀ v, P v → P (f v)) :
    ∀ p ∈ mapUpd l k d f, P p.2 := by
  induction l with
  | nil =>
      intro p hp
      simp only [mapUpd, List.mem_singleton] at hp
      subst hp
      exact hd
  | cons q rest ih =>
      obtain ⟨k₀, v⟩ := q
      intro p hp
      by_cases h : k₀ = k
      · simp only [mapUpd, if_pos h, List.mem_cons] at hp
        rcases hp with hp | hp
        · subst hp
          exact hf v (hl _ (List.mem_cons_self _ _))
        · exact hl _ (List.mem_cons_of_mem _ hp)
      · simp only [mapUpd, if_neg h, List.mem_cons] at hp
        rcases hp with hp | hp
        · subst hp
          exact hl _ (List.mem_cons_self _ _)
        · exact ih (fun q hq => hl _ (List.mem_cons_of_mem _ hq)) p hp

/-- Keys of a `mapUpd` result: the old keys plus the updated key. -/
theorem mapUpd_keys_mem {κ β : Type} [DecidableEq κ] (l : List (κ × β)) (k : κ) (d : β)
    (f : β → β) (k' : κ) :
    k' ∈ (mapUpd l k d f).map Prod.fst ↔ k' ∈ l.map Prod.fst ∨ k' = k := by
  induction l with
  | nil => simp [mapUpd]
  | cons q rest ih =>
      obtain ⟨k₀, v⟩ := q
      by_cases h : k₀ = k
      · subst h
        have hu : mapUpd ((k₀, v) :: rest) k₀ d f = (k₀, f v) :: rest := by
          simp [mapUpd]
        rw [hu]
        simp only [List.map_cons, List.mem_cons]
        tauto
      · have hu : mapUpd ((k₀, v) :: rest) k d f = (k₀, v) :: mapUpd rest k d f := by
          simp [mapUpd, h]
        rw [hu]
        simp only [List.map_cons, List.mem_cons, ih]
        tauto

/-- Additivity of a value measure under `mapUpd`: if the measure of the
default is `0` and the update adds `c`, the total measure grows by `c`. -/
theorem mapUpd_sum_g {κ β : Type} [DecidableEq κ] (g : β → Rat) (l : List (κ × β))
    (k : κ) (d : β) (f : β → β) (c : Rat)
    (hgd : g d = 0) (hf : ∀ v, g (f v) = g v + c) :
    ((mapUpd l k d f).map (fun p => g p.2)).sum = (l.map (fun p => g p.2)).sum + c := by
  induction l with
  | nil => simp [mapUpd, hf, hgd]
  | cons q rest ih =>
      obtain ⟨k₀, v⟩ := q
      by_cases h : k₀ = k
      · simp [mapUpd, h, hf]
        ring
      · simp [mapUpd, h, ih]
        ring

/-- One `bucketStep` raises the sum of the bucket totals by the processed
expense's amount. -/
theorem bucketStep_total_sum {κ₁ κ₂ : Type} [DecidableEq κ₁] [DecidableEq κ₂]
    (key : Expense → κ₁) (sub : Expense → κ₂) (m : List (κ₁ × Bucket κ₂)) (e : Expense) :
    ((bucketStep key sub m e).map (fun p => p.2.total)).sum
      = (m.map (fun p => p.2.total)).sum + e.amount :=
  mapUpd_sum_g (fun b => b.total) m _ Bucket.empty _ e.amount rfl (fun _ => rfl)

/-- Folding `bucketStep` over a collection raises the sum of the bucket
totals by the collection's amount sum. -/
theorem foldl_bucketStep_total_sum {κ₁ κ₂ : Type} [DecidableEq κ₁] [DecidableEq κ₂]
    (key : Expense → κ₁) (sub : Expense → κ₂) :
    ∀ (l : List Expense) (m : List (κ₁ × Bucket κ₂)),
      ((l.foldl (bucketStep key sub) m).map (fun p => p.2.total)).sum
        = (m.map (fun p => p.2.total)).sum + amountSum l := by
  intro l
  induction l with
  | nil =>
      intro m
      simp [amountSum]
  | cons e l ih =>
      intro m
      simp only [List.foldl_cons, ih, bucketStep_total_sum, amountSum, List.map_cons,
        List.sum_cons]
      ring

/-- Every bucket built by folding `bucketStep` keeps its total equal to the
sum of its per-sub-key subtotals. -/
theorem foldl_bucketStep_bucket_total {κ₁ κ₂ : Type} [DecidableEq κ₁] [DecidableEq κ₂]
    (key : Expense → κ₁) (sub : Expense → κ₂) :
    ∀ (l : List Expense) (m : List (κ₁ × Bucket κ₂)),
      (∀ p ∈ m, p.2.total = (p.2.subs.map (·.2)).sum) →
      ∀ p ∈ l.foldl (bucketStep key sub) m, p.2.total = (p.2.subs.map (·.2)).sum := by
  intro l
  induction l with
  | nil => intro m hm; exact hm
  | cons e l ih =>
      intro m hm
      refine ih _ ?_
      unfold bucketStep
      refine @mapUpd_mem_inv κ₁ (Bucket κ₂) _ (fun b => b.total = (b.subs.map (·.2)).sum)
        m (key e) Bucket.empty _ hm ?_ ?_
      · simp [Bucket.empty, mapUpd]
      · intro v hv
        simp [mapUpd_sum_snd, hv]

/-- Keys present after folding `bucketStep`: the initial keys plus the key
of some processed expense. -/
theorem foldl_bucketStep_keys_mem {κ₁ κ₂ : Type} [DecidableEq κ₁] [DecidableEq κ₂]
    (key : Expense → κ₁) (sub : Expense → κ₂) :
    ∀ (l : List Expense) (m : List (κ₁ × Bucket κ₂)) (k : κ₁),
      k ∈ (l.foldl (bucketStep key sub) m).map Prod.fst ↔
        k ∈ m.map Prod.fst ∨ ∃ e ∈ l, key e = k := by
  intro l
  induction l with
  | nil =>
      intro m k
      simp
  | cons e l ih =>
      intro m k
      rw [List.foldl_cons, ih]
      unfold bucketStep
      rw [mapUpd_keys_mem]
      simp only [List.mem_cons]
      constructor
      · rintro ((h | h) | ⟨e', he', rfl⟩)
        · exact Or.inl h
        · exact Or.inr ⟨e, Or.inl rfl, h.symm⟩
        · exact Or.inr ⟨e', Or.inr he', rfl⟩
      · rintro (h | ⟨e', (rfl | he'), rfl⟩)
        · exact Or.inl (Or.inl h)
        · exact Or.inl (Or.inr rfl)
        · exact Or.inr ⟨e', he', rfl⟩

/-- Stability of `insertionSort` relative to a predicate on which the order
relation is indiscriminate: the sort permutes nothing inside the class, so
filtering the sorted list gives exactly the filtered input. -/
theorem insertionSort_filter_stable {α : Type} {r : α → α → Prop} [DecidableRel r]
    [IsTotal α r] [IsTrans α r] (p : α → Bool)
    (hp : ∀ x y, p x = true → p y = true → r x y) (l : List α) :
    (List.insertionSort r l).filter p = l.filter p := by
  have hpair : (l.filter p).Pairwise r :=
    List.pairwise_of_forall_mem_list fun a ha b hb =>
      hp a b (List.mem_filter.mp ha).2 (List.mem_filter.mp hb).2
  have hsub : (l.filter p).Sublist (List.insertionSort r l) :=
    List.sublist_insertionSort hpair (List.filter_sublist l)
  have hsub2 : ((l.filter p).filter p).Sublist ((List.insertionSort r l).filter p) :=
    hsub.filter p
  have hself : (l.filter p).filter p = l.filter p :=
    List.filter_eq_self.mpr fun a ha => (List.mem_filter.mp ha).2
  rw [hself] at hsub2
  have hperm : ((List.insertionSort r l).filter p).Perm (l.filter p) :=
    (List.perm_insertionSort r l).filter p
  exact (hsub2.eq_of_length hperm.length_eq.symm).symm

/-- The running-total fold of the source equals the initial value plus the
amount sum. -/
theorem foldl_add_amount (l : List Expense) (init : Rat) :
    l.foldl (fun sum e => sum + e.amount) init = init + amountSum l := by
  induction l generalizing init with
  | nil => simp [amountSum]
  | cons e l ih =>
      simp only [List.foldl_cons, ih, amountSum, List.map_cons, List.sum_cons]
      ring

/-- Income version of `foldl_add_amount`. -/
theorem foldl_add_income (l : List Income) (init : Rat) :
    l.foldl (fun sum i => sum + i.amount) init = init + incomeSum l := by
  induction l generalizing init with
  | nil => simp [incomeSum]
  | cons i l ih =>
      simp only [List.foldl_cons, ih, incomeSum, List.map_cons, List.sum_cons]
      ring

/-- Lookup after a map write: the written key reads back the written value,
every other key is untouched. -/
theorem mapGet_mapSet {κ β : Type} [DecidableEq κ] (l : List (κ × β)) (k k' : κ) (v : β) :
    mapGet (mapSet l k v) k' = if k = k' then some v else mapGet l k' := by
  induction l with
  | nil =>
      by_cases h : k = k' <;> simp [mapSet, mapGet, h]
  | cons q rest ih =>
      obtain ⟨k₀, v₀⟩ := q
      by_cases h : k₀ = k
      · subst h
        by_cases h2 : k₀ = k' <;> simp [mapSet, mapGet, h2]
      · by_cases h2 : k₀ = k'
        · subst h2
          simp [mapSet, mapGet, h, Ne.symm h]
        · simp [mapSet, mapGet, h, h2, ih]

/-- Folding balance writes for accounts whose ids all differ from `k` leaves
the entry of `k` unchanged. -/
theorem accountBalances_foldl_untouched (expenses : List Expense) (incomes : List Income) :
    ∀ (accounts : List BankAccount) (m : List (String × Rat)) (k : String),
      (∀ a ∈ accounts, a.id ≠ k) →
      mapGet
          (accounts.foldl
            (fun balances acc => mapSet balances acc.id (balanceOf expenses incomes acc)) m)
          k
        = mapGet m k := by
  intro accounts
  induction accounts with
  | nil => intro m k _; rfl
  | cons a rest ih =>
      intro m k h
      rw [List.foldl_cons, ih _ _ (fun b hb => h b (List.mem_cons_of_mem _ hb)),
        mapGet_mapSet]
      simp [h a (List.mem_cons_self _ _)]

/-- Mapping a function of the payload over an enumerated list ignores the
indices. -/
theorem enum_map_snd_comp {α β : Type} (l : List α) (g : α → β) :
    l.enum.map (fun p => g p.2) = l.map g := by
  calc l.enum.map (fun p => g p.2) = (l.enum.map Prod.snd).map g := by
        rw [List.map_map]; rfl
    _ = l.map g := by rw [List.enum_map_snd]

/-- Mapping a function of the index over an enumerated list ignores the
payloads. -/
theorem enum_map_fst_comp {α β : Type} (l : List α) (g : Nat → β) :
    l.enum.map (fun p => g p.1) = (List.range l.length).map g := by
  calc l.enum.map (fun p => g p.1) = (l.enum.map Prod.fst).map g := by
        rw [List.map_map]; rfl
    _ = (List.range l.length).map g := by rw [List.enum_map_fst]

/-- Characterisation of the duplicate test: some existing record matches the
candidate on normalised description, amount and date. -/
theorem isDuplicate_iff (existing : List Expense) (desc : String) (amt : Rat) (date : String) :
    isDuplicate existing desc amt date = true ↔
      ∃ exp ∈ existing, jsTrim (jsToLower exp.description) = jsTrim (jsToLower desc) ∧
        exp.amount = amt ∧ exp.date = date := by
  unfold isDuplicate
  rw [List.any_eq_true]
  constructor
  · rintro ⟨x, hx, hb⟩
    simp only [Bool.and_eq_true, beq_iff_eq] at hb
    exact ⟨x, hx, hb.2, hb.1.1, hb.1.2⟩
  · rintro ⟨x, hx, h1, h2, h3⟩
    refine ⟨x, hx, ?_⟩
    simp [h1, h2, h3]

/-! ### Claim theorems -/

/-- C4: for every expense collection and every value of `today`, an expense
is in the overdue set iff its status is unpaid and its date string is
strictly below today's ISO date — an unpaid expense dated exactly today is
not overdue — and the overdue set is sorted ascending by date, oldest
first. -/
theorem c4_overdue_set (today : String) (expenses : List Expense) :
    (∀ e, e ∈ overdueExpenses today expenses ↔
        e ∈ expenses ∧ e.status = Status.unpaid ∧ e.date < today) ∧
    (∀ e, e.date = today → e ∉ overdueExpenses today expenses) ∧
    (overdueExpenses today expenses).Sorted dateLE := by
  have hmem : ∀ e, e ∈ overdueExpenses today expenses ↔
      e ∈ expenses ∧ e.status = Status.unpaid ∧ e.date < today := by
    intro e
    unfold overdueExpenses
    rw [List.mem_insertionSort, List.mem_filter]
    simp
  refine ⟨hmem, ?_, List.sorted_insertionSort dateLE _⟩
  intro e he hcontra
  have h := ((hmem e).mp hcontra).2.2
  rw [he] at h
  exact lt_irrefl today h

/-- C4 witness: the boundary case — an unpaid expense dated exactly today is
not in the overdue set. -/
theorem c4_overdue_set_witness :
    sampleUtility ∉ overdueExpenses "2023-11-01" [sampleUtility] :=
  (c4_overdue_set "2023-11-01" [sampleUtility]).2.1 sampleUtility rfl

/-- C5: theorem accompanying the `code_bug` verdict.  At noon of 2024-01-01
(any instant of that day after 00:00 UTC behaves alike), the source's
`getDaysOverdue` — a ceiling over a raw timestamp subtraction — reports 62
days for the unpaid expense dated 2023-11-01, while the calendar-day
difference mandated by the specification is 61. -/
theorem c5_days_overdue_timestamp_bug :
    getDaysOverdue (msAtUTCMidnight 2024 1 1 + 12 * 3600000) (msAtUTCMidnight 2023 11 1) = 62 ∧
    daysFromCivil 2024 1 1 - daysFromCivil 2023 11 1 = 61 ∧
    getDaysOverdue (msAtUTCMidnight 2024 1 1 + 12 * 3600000) (msAtUTCMidnight 2023 11 1) ≠
      (daysFromCivil 2024 1 1 - daysFromCivil 2023 11 1).toNat := by
  refine ⟨by decide, by decide, by decide⟩

/-- C6: the filter engine returns the subsequence of records, in original
relative order, satisfying the AND of all set predicates of the
specification's filter contract — case-insensitive substring search over
description, category and the resolved (possibly empty) account name,
inclusive ISO date bounds, exact equality on category, account and status,
unset fields unconstrained. -/
theorem c6_filter_engine_refines_spec (expenses : List Expense)
    (accounts : List BankAccount) (f : FilterSpec) :
    filteredExpenses expenses accounts f = expenses.filter (specMatches accounts f.toSpec) ∧
    (filteredExpenses expenses accounts f).Sublist expenses := by
  constructor
  · unfold filteredExpenses
    apply List.filter_congr
    intro e _
    unfold expenseMatches specMatches FilterSpec.toSpec
    by_cases h1 : f.startDate = "" <;> by_cases h2 : f.endDate = "" <;>
      by_cases h3 : f.selectedCategory = "" <;> by_cases h4 : f.selectedAccountId = "" <;>
        by_cases h5 : f.paymentStatus = "" <;>
          simp [h1, h2, h3, h4, h5]
  · exact List.filter_sublist _

/-- C10: every add or update of an expense or income re-sorts the stored
collection into descending date order (newest first) while only permuting
the intended records, and a bank-account add is a plain prepend with no
sort. -/
theorem c10_store_reordering (x u : Expense) (prev : List Expense) (inc incU : Income)
    (iprev : List Income) (acc : BankAccount) (aprev : List BankAccount) :
    ((handleAddExpense x prev).Perm (x :: prev) ∧ (handleAddExpense x prev).Sorted dateGE) ∧
    ((handleUpdateExpense u prev).Perm (prev.map fun e => if e.id == u.id then u else e) ∧
      (handleUpdateExpense u prev).Sorted dateGE) ∧
    ((handleAddIncome inc iprev).Perm (inc :: iprev) ∧
      (handleAddIncome inc iprev).Sorted incomeDateGE) ∧
    ((handleUpdateIncome incU iprev).Perm
        (iprev.map fun i => if i.id == incU.id then incU else i) ∧
      (handleUpdateIncome incU iprev).Sorted incomeDateGE) ∧
    handleAddBankAccount acc aprev = acc :: aprev :=
  ⟨⟨List.perm_insertionSort _ _, List.sorted_insertionSort _ _⟩,
    ⟨List.perm_insertionSort _ _, List.sorted_insertionSort _ _⟩,
    ⟨List.perm_insertionSort _ _, List.sorted_insertionSort _ _⟩,
    ⟨List.perm_insertionSort _ _, List.sorted_insertionSort _ _⟩, rfl⟩

/-- C8: duplicate detection and its asymmetry.  A candidate is flagged iff
some existing expense matches it on trimmed+lowercased description, amount
and date; against a single matching record, changing any one of the three
fields removes the flag; on manual (non-editing) entry a flagged candidate
is parked behind the blocking "save anyway?" confirmation instead of being
saved, an unflagged one is saved directly; and the batch import commit
admits every candidate as-is, with no duplicate check at all. -/
theorem c8_duplicate_detection :
    (∀ (existing : List Expense) (desc : String) (amt : Rat) (date : String),
        isDuplicate existing desc amt date = true ↔
          ∃ exp ∈ existing, jsTrim (jsToLower exp.description) = jsTrim (jsToLower desc) ∧
            exp.amount = amt ∧ exp.date = date) ∧
    (∀ (exp : Expense) (desc : String) (amt : Rat) (date : String),
        jsTrim (jsToLower desc) ≠ jsTrim (jsToLower exp.description) ∨ amt ≠ exp.amount ∨
            date ≠ exp.date →
        isDuplicate [exp] desc amt date = false) ∧
    (∀ (existing : List Expense) (d : Expense),
        isDuplicate existing d.description d.amount d.date = true →
        handleSubmit false existing d = SubmitOutcome.duplicateWarning d) ∧
    (∀ (existing : List Expense) (d : Expense),
        isDuplicate existing d.description d.amount d.date = false →
        handleSubmit false existing d = SubmitOutcome.saved d) ∧
    (∀ (gen : Nat → String) (cands : List ParsedExpenseData),
        (handleSaveImportCandidates gen cands).map
            (fun e => (e.description, e.amount, e.date, e.category, e.status)) =
          cands.map (fun c => (c.description, c.amount, c.date, c.category, Status.unpaid))) := by
  refine ⟨isDuplicate_iff, ?_, ?_, ?_, ?_⟩
  · intro exp desc amt date h
    rw [Bool.eq_false_iff]
    intro hc
    rw [isDuplicate_iff] at hc
    obtain ⟨x, hx, hd, ha, hdt⟩ := hc
    rw [List.mem_singleton] at hx
    subst hx
    rcases h with h | h | h
    · exact h hd.symm
    · exact h ha.symm
    · exact h hdt.symm
  · intro existing d h
    have hne : existing.isEmpty = false := by
      cases existing with
      | nil => simp [isDuplicate] at h
      | cons a l => rfl
    simp [handleSubmit, h, hne]
  · intro existing d h
    simp [handleSubmit, h]
  · intro gen cands
    unfold handleSaveImportCandidates
    rw [List.map_map]
    have hfun :
        ((fun e : Expense => (e.description, e.amount, e.date, e.category, e.status)) ∘
            fun p : Nat × ParsedExpenseData =>
              ({ id := gen p.1, description := p.2.description, amount := p.2.amount,
                 date := p.2.date, category := p.2.category, attachments := [],
                 bankAccountId := none, status := Status.unpaid } : Expense)) =
          fun p : Nat × ParsedExpenseData =>
            (p.2.description, p.2.amount, p.2.date, p.2.category, Status.unpaid) := rfl
    rw [hfun]
    exact enum_map_snd_comp cands
      (fun c => (c.description, c.amount, c.date, c.category, Status.unpaid))

/-- C8 witness: the duplicate-in-case-and-whitespace candidate against the
one-record sample ledger trips the blocking confirmation. -/
theorem c8_duplicate_detection_witness :
    handleSubmit false [sampleExpense] dupCandidate =
      SubmitOutcome.duplicateWarning dupCandidate :=
  c8_duplicate_detection.2.2.1 [sampleExpense] dupCandidate (by decide)

/-- Lookup of one account's balance after the whole balance fold, assuming
no id collision among the accounts. -/
theorem accountBalances_get_aux (expenses : List Expense) (incomes : List Income) :
    ∀ (accounts : List BankAccount) (m : List (String × Rat)),
      (accounts.map (·.id)).Nodup →
      ∀ acc ∈ accounts,
        mapGet
            (accounts.foldl
              (fun balances a => mapSet balances a.id (balanceOf expenses incomes a)) m)
            acc.id
          = some (balanceOf expenses incomes acc) := by
  intro accounts
  induction accounts with
  | nil =>
      intro m _ acc hacc
      simp at hacc
  | cons a rest ih =>
      intro m hnd acc hacc
      rw [List.map_cons, List.nodup_cons] at hnd
      obtain ⟨hna, hnd⟩ := hnd
      rw [List.foldl_cons]
      rcases List.mem_cons.mp hacc with rfl | hacc'
      · rw [accountBalances_foldl_untouched expenses incomes rest _ acc.id
          (fun b hb hbid => hna (hbid ▸ List.mem_map_of_mem (·.id) hb)), mapGet_mapSet]
        simp
      · exact ih _ hnd acc hacc'

/-- C2: for every bank account (ids unambiguous), the computed balance is
`initialBalance + Σ attributed incomes − Σ attributed expenses` over the
entire record collections, and an account with no attributed records keeps
exactly its initial balance. -/
theorem c2_balance_additivity (expenses : List Expense) (incomes : List Income)
    (accounts : List BankAccount) (h : (accounts.map (·.id)).Nodup)
    (acc : BankAccount) (hacc : acc ∈ accounts) :
    mapGet (accountBalances accounts expenses incomes) acc.id =
      some (acc.initialBalance
        + incomeSum (incomes.filter (fun i => i.bankAccountId == some acc.id))
        - amountSum (expenses.filter (fun e => e.bankAccountId == some acc.id))) ∧
    (expenses.filter (fun e => e.bankAccountId == some acc.id) = [] →
      incomes.filter (fun i => i.bankAccountId == some acc.id) = [] →
      mapGet (accountBalances accounts expenses incomes) acc.id = some acc.initialBalance) := by
  have hmain := accountBalances_get_aux expenses incomes accounts [] h acc hacc
  have hval : balanceOf expenses incomes acc =
      acc.initialBalance
        + incomeSum (incomes.filter (fun i => i.bankAccountId == some acc.id))
        - amountSum (expenses.filter (fun e => e.bankAccountId == some acc.id)) := by
    unfold balanceOf attributedIncomeSum attributedExpenseSum
    rw [foldl_add_amount, foldl_add_income]
    ring
  constructor
  · rw [accountBalances, hmain, hval]
  · intro he hi
    rw [accountBalances, hmain, hval, he, hi]
    simp [amountSum, incomeSum]

/-- C2 witness: the specification's worked scenario — initial balance 5000,
one income of 550 and one expense of 450 attributed to the account — yields
balance 5100. -/
theorem c2_balance_additivity_witness :
    mapGet (accountBalances [sampleAccount] [sampleExpenseAcc] [sampleIncomeAcc]) "acc1" =
      some 5100 := by
  have h := (c2_balance_additivity [sampleExpenseAcc] [sampleIncomeAcc] [sampleAccount]
    (by decide) sampleAccount (by decide)).1
  refine h.trans ?_
  norm_num [sampleAccount, sampleIncomeAcc, sampleExpenseAcc, incomeSum, amountSum,
    List.filter]

/-- C9 counterexample: an XML import whose `<expense>` item carries an
`<id>E1</id>` element admits the record under the carried id `E1`, not under
a freshly generated one — the import reuses an id carried in the imported
data, against the claim. -/
theorem c9_import_reused_id_counterexample :
    (handleImportFileXML genFresh "2024-01-01" [] [xmlItemCarried]).map (·.id) = ["E1"] ∧
    ("E1" : String) ≠ genFresh 0 := by
  constructor
  · rfl
  · decide

/-- C9 amended: the extraction-service batch commit assigns every candidate
a fresh id from the supply — pairwise distinct when the supply is injective;
the XML import draws an id from the supply only for the items that carry
none (or an empty one); and records enter the ledger through the add
handler, which keeps every existing record, so an import never overwrites
one. -/
theorem c9_import_ids_amended (gen : Nat → String) (today : String)
    (accounts : List BankAccount) (items : List XmlExpenseItem)
    (cands : List ParsedExpenseData) (x : Expense) (prev : List Expense)
    (hinj : Function.Injective gen) :
    ((handleSaveImportCandidates gen cands).map (·.id) = (List.range cands.length).map gen ∧
      ((handleSaveImportCandidates gen cands).map (·.id)).Nodup) ∧
    ((∀ it ∈ items, it.id = none ∨ it.id = some "") →
      ∀ rec ∈ handleImportFileXML gen today accounts items, ∃ i, rec.id = gen i) ∧
    (∀ e ∈ prev, e ∈ handleAddExpense x prev) := by
  have hids : (handleSaveImportCandidates gen cands).map (·.id) =
      (List.range cands.length).map gen := by
    unfold handleSaveImportCandidates
    rw [List.map_map]
    exact enum_map_fst_comp cands gen
  refine ⟨⟨hids, ?_⟩, ?_, ?_⟩
  · rw [hids]
    exact (List.nodup_range _).map hinj
  · intro hall rec hrec
    unfold handleImportFileXML at hrec
    rw [List.mem_filterMap] at hrec
    obtain ⟨p, hp, hfp⟩ := hrec
    have hmem : p.2 ∈ items := by
      have := List.mem_map_of_mem Prod.snd hp
      rwa [List.enum_map_snd] at this
    by_cases hc : p.2.description.getD "" ≠ "" ∧ 0 < p.2.amount
    · rw [if_pos hc] at hfp
      rcases hall p.2 hmem with hid | hid <;>
        · refine ⟨p.1, ?_⟩
          rw [← Option.some.inj hfp]
          simp [hid]
    · rw [if_neg hc] at hfp
      exact absurd hfp (Option.noConfusion)
  · intro e he
    exact (List.mem_insertionSort _).mpr (List.mem_cons_of_mem _ he)

/-- C9 witness: with the injective supply `genRep`, committing two identical
extraction candidates still yields pairwise-distinct fresh ids. -/
theorem c9_import_ids_amended_witness :
    ((handleSaveImportCandidates genRep
        [⟨"Bolletta luce", 10, "Utenze", "2024-01-01"⟩,
          ⟨"Bolletta luce", 10, "Utenze", "2024-01-01"⟩]).map (·.id)).Nodup :=
  (c9_import_ids_amended genRep "2024-01-01" []
    [] [⟨"Bolletta luce", 10, "Utenze", "2024-01-01"⟩,
      ⟨"Bolletta luce", 10, "Utenze", "2024-01-01"⟩] sampleExpense []
    (fun a b hab => by
      have hlen := congrArg (fun s => s.data.length) hab
      simpa [genRep] using hlen)).1.2

/-- C3 counterexample: for the sample one-record ledger under the empty
filter, the CSV export consists of the header line and the single data line
and nothing more — no trailing total row exists in any form, although the
filtered total displayed by the list view is 450. -/
theorem c3_export_total_counterexample :
    handleExportCSV [sampleExpense] [] noFilter =
      some
        ["ID;Data;Descrizione;Categoria;Importo;Stato Pagamento;Conto Corrente;ID Conto;Numero Allegati",
          "e1;2023-10-15;\"Manutenzione ascensore\";Manutenzione;450;paid;\"\";;0"] ∧
    filteredTotal [sampleExpense] [] noFilter = 450 := by
  constructor
  · rfl
  · norm_num [filteredTotal, filteredExpenses, expenseMatches, noFilter, sampleExpense,
      containsCI, jsToLower, resolvedBankName]

/-- C3 amended: the PDF export's footer total is the very `filteredTotal`
the list view displays, and it equals the sum of the amounts of the PDF
body rows; the CSV export emits exactly a header plus one line per filtered
record, the DOCX export exactly one body row per filtered record, and the
XML export exactly the prologue, one `<expense>` element per filtered
record and the closing tag — none of the three emits any total row. -/
theorem c3_export_parity_amended (expenses : List Expense) (accounts : List BankAccount)
    (f : FilterSpec) :
    (handleExportPDF expenses accounts f).footTotal = filteredTotal expenses accounts f ∧
    (handleExportPDF expenses accounts f).footTotal =
      ((handleExportPDF expenses accounts f).body.map (·.amount)).sum ∧
    (∀ lines, handleExportCSV expenses accounts f = some lines →
      lines.length = 1 + (filteredExpenses expenses accounts f).length) ∧
    (∀ rows, handleExportDOCX expenses accounts f = some rows →
      rows.length = (filteredExpenses expenses accounts f).length) ∧
    (∀ s, handleExportXML expenses accounts f = some s →
      s = "<?xml version=\"1.0\" encoding=\"UTF-8\"?>\n<expenses>\n" ++
        String.join ((filteredExpenses expenses accounts f).map (xmlExpenseElem accounts)) ++
        "</expenses>") := by
  refine ⟨rfl, ?_, ?_, ?_, ?_⟩
  · show filteredTotal expenses accounts f = _
    unfold filteredTotal handleExportPDF
    rw [foldl_add_amount, List.map_map, zero_add]
    rfl
  · intro lines h
    unfold handleExportCSV at h
    by_cases he : (filteredExpenses expenses accounts f).isEmpty
    · rw [if_pos he] at h
      exact absurd h (Option.noConfusion)
    · rw [if_neg he] at h
      rw [← Option.some.inj h]
      simp [Nat.add_comm]
  · intro rows h
    unfold handleExportDOCX at h
    by_cases he : (filteredExpenses expenses accounts f).isEmpty
    · rw [if_pos he] at h
      exact absurd h (Option.noConfusion)
    · rw [if_neg he] at h
      rw [← Option.some.inj h]
      simp
  · intro s h
    unfold handleExportXML at h
    by_cases he : (filteredExpenses expenses accounts f).isEmpty
    · rw [if_pos he] at h
      exact absurd h (Option.noConfusion)
    · rw [if_neg he] at h
      exact (Option.some.inj h).symm

/-- C3 witness: the amended shape facts at the sample ledger — the CSV
export's two lines are the header plus the one filtered record. -/
theorem c3_export_parity_amended_witness :
    (["ID;Data;Descrizione;Categoria;Importo;Stato Pagamento;Conto Corrente;ID Conto;Numero Allegati",
        "e1;2023-10-15;\"Manutenzione ascensore\";Manutenzione;450;paid;\"\";;0"] :
          List String).length =
      1 + (filteredExpenses [sampleExpense] [] noFilter).length :=
  (c3_export_parity_amended [sampleExpense] [] noFilter).2.2.1 _ (by rfl)

/-- C1: partition totals of the grouping engine, in both grouping modes and
for every selected year — each group's total equals the sum of its items'
amounts, the group totals sum to the year-scoped input's total, and an
empty year-scoped input yields the empty group list. -/
theorem c1_partition_totals (expenses : List Expense) (year : Nat) :
    ((∀ g ∈ groupByMonth year expenses, g.total = (g.items.map (·.amount)).sum) ∧
      ((groupByMonth year expenses).map (·.total)).sum = amountSum (yearFiltered year expenses) ∧
      (yearFiltered year expenses = [] → groupByMonth year expenses = [])) ∧
    ((∀ g ∈ groupByCategory year expenses, g.total = (g.items.map (·.amount)).sum) ∧
      ((groupByCategory year expenses).map (·.total)).sum
          = amountSum (yearFiltered year expenses) ∧
      (yearFiltered year expenses = [] → groupByCategory year expenses = [])) := by
  constructor
  · refine ⟨?_, ?_, ?_⟩
    · intro g hg
      obtain ⟨p, hp, rfl⟩ := List.mem_map.mp hg
      have hp' : p ∈ buildMap (fun e => jsGetMonth e.date) (fun e => e.category)
          (yearFiltered year expenses) := (List.mem_insertionSort _).mp hp
      have htot := foldl_bucketStep_bucket_total (fun e => jsGetMonth e.date)
        (fun e => e.category) (yearFiltered year expenses) []
        (by intro q hq; simp at hq) p hp'
      have hperm := ((List.perm_insertionSort catItemGE (monthItemsOf p)).map
        (·.amount)).sum_eq
      have hpre : (monthItemsOf p).map (·.amount) = p.2.subs.map (·.2) := by
        unfold monthItemsOf
        rw [List.map_map]
        rfl
      calc (mkMonthGroup p).total = p.2.total := rfl
        _ = (p.2.subs.map (·.2)).sum := htot
        _ = ((monthItemsOf p).map (·.amount)).sum := by rw [hpre]
        _ = ((mkMonthGroup p).items.map (·.amount)).sum := hperm.symm
    · have hperm := ((List.perm_insertionSort monthEntryGE
        (buildMap (fun e => jsGetMonth e.date) (fun e => e.category)
          (yearFiltered year expenses))).map (fun p => p.2.total)).sum_eq
      unfold groupByMonth
      rw [List.map_map]
      have hcomp : ((fun g : MonthGroup => g.total) ∘ mkMonthGroup) =
          (fun p : Nat × Bucket String => p.2.total) := rfl
      rw [hcomp, hperm]
      unfold buildMap
      rw [foldl_bucketStep_total_sum]
      simp
    · intro h
      unfold groupByMonth
      rw [h]
      rfl
  · refine ⟨?_, ?_, ?_⟩
    · intro g hg
      obtain ⟨p, hp, rfl⟩ := List.mem_map.mp hg
      have hp' : p ∈ buildMap (fun e => e.category) (fun e => jsGetMonth e.date)
          (yearFiltered year expenses) := (List.mem_insertionSort _).mp hp
      have htot := foldl_bucketStep_bucket_total (fun e => e.category)
        (fun e => jsGetMonth e.date) (yearFiltered year expenses) []
        (by intro q hq; simp at hq) p hp'
      have hperm := ((List.perm_insertionSort monthItemLE (catItemsOf p)).map
        (·.amount)).sum_eq
      have hpre : (catItemsOf p).map (·.amount) = p.2.subs.map (·.2) := by
        unfold catItemsOf
        rw [List.map_map]
        rfl
      calc (mkCatGroup p).total = p.2.total := rfl
        _ = (p.2.subs.map (·.2)).sum := htot
        _ = ((catItemsOf p).map (·.amount)).sum := by rw [hpre]
        _ = ((mkCatGroup p).items.map (·.amount)).sum := hperm.symm
    · have hperm := ((List.perm_insertionSort catEntryLE
        (buildMap (fun e => e.category) (fun e => jsGetMonth e.date)
          (yearFiltered year expenses))).map (fun p => p.2.total)).sum_eq
      unfold groupByCategory
      rw [List.map_map]
      have hcomp : ((fun g : CatGroup => g.total) ∘ mkCatGroup) =
          (fun p : String × Bucket Nat => p.2.total) := rfl
      rw [hcomp, hperm]
      unfold buildMap
      rw [foldl_bucketStep_total_sum]
      simp
    · intro h
      unfold groupByCategory
      rw [h]
      rfl

/-- Evaluation of the month grouping on the one-record sample ledger, used
to ground the grouping witnesses. -/
theorem groupByMonth_sample_eval :
    groupByMonth 2023 [sampleExpense] =
      [⟨9, 450, [⟨"Manutenzione", 450, 1⟩]⟩] := by
  have h1 : (jsGetFullYear sampleExpense.date == 2023) = true := by decide
  have h2 : jsGetMonth sampleExpense.date = 9 := by decide
  have h3 : sampleExpense.amount = 450 := rfl
  have h4 : sampleExpense.category = "Manutenzione" := rfl
  simp only [groupByMonth, yearFiltered, buildMap, List.filter, h1, List.foldl,
    bucketStep, mapUpd, Bucket.empty, h2, h3, h4, List.insertionSort, List.orderedInsert,
    List.map, mkMonthGroup, monthItemsOf, List.find?]
  norm_num

/-- C1 witness: the sole group of the sample ledger carries total 450, the
sum of its single item's amount. -/
theorem c1_partition_totals_witness :
    (⟨9, 450, [⟨"Manutenzione", 450, 1⟩]⟩ : MonthGroup).total =
      (([⟨"Manutenzione", 450, 1⟩] : List CatItem).map (·.amount)).sum :=
  (c1_partition_totals [sampleExpense] 2023).1.1 _
    (by rw [groupByMonth_sample_eval]; exact List.mem_singleton.mpr rfl)

/-- C7: ordering rules of the grouping engine.  By month: only months with
at least one year-scoped record appear, months descend, the category items
of each month descend by subtotal with ties kept in the first-encounter
order of the bucket's subtotal map.  By category: the groups ascend
lexicographically by label, exactly the categories with a record appear,
and the month items of each category ascend chronologically. -/
theorem c7_grouping_order (expenses : List Expense) (year : Nat) :
    ((groupByMonth year expenses).Sorted (fun a b => b.monthIdx ≤ a.monthIdx) ∧
      (∀ mo : Nat, mo ∈ (groupByMonth year expenses).map (·.monthIdx) ↔
        mo ∈ (yearFiltered year expenses).map (fun e => jsGetMonth e.date)) ∧
      (∀ g ∈ groupByMonth year expenses, g.items.Sorted catItemGE) ∧
      (∀ g ∈ groupByMonth year expenses,
        ∃ p ∈ buildMap (fun e => jsGetMonth e.date) (fun e => e.category)
            (yearFiltered year expenses),
          g = mkMonthGroup p ∧
            ∀ a : Rat, g.items.filter (fun it => it.amount == a) =
              (monthItemsOf p).filter (fun it => it.amount == a))) ∧
    ((groupByCategory year expenses).Sorted (fun a b => a.label ≤ b.label) ∧
      (∀ c : String, c ∈ (groupByCategory year expenses).map (·.label) ↔
        c ∈ (yearFiltered year expenses).map (·.category)) ∧
      (∀ g ∈ groupByCategory year expenses, g.items.Sorted monthItemLE)) := by
  constructor
  · refine ⟨?_, ?_, ?_, ?_⟩
    · exact List.Pairwise.map mkMonthGroup (fun p q h => h)
        (List.sorted_insertionSort monthEntryGE _)
    · intro mo
      unfold groupByMonth
      rw [List.map_map]
      have hcomp : ((fun g : MonthGroup => g.monthIdx) ∘ mkMonthGroup) =
          (Prod.fst : Nat × Bucket String → Nat) := rfl
      rw [hcomp, ((List.perm_insertionSort monthEntryGE _).map Prod.fst).mem_iff]
      unfold buildMap
      rw [foldl_bucketStep_keys_mem]
      simp
    · intro g hg
      obtain ⟨p, hp, rfl⟩ := List.mem_map.mp hg
      exact List.sorted_insertionSort catItemGE (monthItemsOf p)
    · intro g hg
      obtain ⟨p, hp, rfl⟩ := List.mem_map.mp hg
      refine ⟨p, (List.mem_insertionSort _).mp hp, rfl, ?_⟩
      intro a
      apply insertionSort_filter_stable
      intro x y hx hy
      have hxa : x.amount = a := by simpa using hx
      have hya : y.amount = a := by simpa using hy
      unfold catItemGE
      rw [hxa, hya]
  · refine ⟨?_, ?_, ?_⟩
    · exact List.Pairwise.map mkCatGroup (fun p q h => h)
        (List.sorted_insertionSort catEntryLE _)
    · intro c
      unfold groupByCategory
      rw [List.map_map]
      have hcomp : ((fun g : CatGroup => g.label) ∘ mkCatGroup) =
          (Prod.fst : String × Bucket Nat → String) := rfl
      rw [hcomp, ((List.perm_insertionSort catEntryLE _).map Prod.fst).mem_iff]
      unfold buildMap
      rw [foldl_bucketStep_keys_mem]
      simp
    · intro g hg
      obtain ⟨p, hp, rfl⟩ := List.mem_map.mp hg
      exact List.sorted_insertionSort monthItemLE (catItemsOf p)

/-- C7 witness: the items of the sample ledger's single month group are
sorted by subtotal descending. -/
theorem c7_grouping_order_witness :
    (⟨9, 450, [⟨"Manutenzione", 450, 1⟩]⟩ : MonthGroup).items.Sorted catItemGE :=
  (c7_grouping_order [sampleExpense] 2023).1.2.2.1 _
    (by rw [groupByMonth_sample_eval]; exact List.mem_singleton.mpr rfl)

end Condo
